import Mathlib

/-!
Verification of the utility code in the `tessworkshop_tutorials` notebooks:
phase folding (`x_fold` in `exoplanet/02_transit.ipynb`), nearest-time index
lookup (`find_index`), JSON-to-table conversion (`json_to_table`) and the
frame-animation builder (`make_animation`) in
`tesscut_exomast/TESScut_ExoMAST_exercises.ipynb`.

Machine floating-point arithmetic is modelled by exact rational arithmetic:
the Python float modulus `a % P` for `P > 0` is the exact real operation
`a - P * ⌊a / P⌋`, and numpy reductions (`min`, `max`, `argmin`) are modelled
on lists of rationals.
-/

namespace TessWorkshop

/-! ## Phase folding

Source (`exoplanet/02_transit.ipynb`):
`x_fold = (x - t0_guess + 0.5*period_guess) % period_guess - 0.5*period_guess`
applied elementwise to an array `x` of observation times. -/

/-- Python `%` on floats, exact: `a - P * ⌊a / P⌋`.
For `P > 0` the result has the sign of the divisor, i.e. lies in `[0, P)`. -/
def pymod (a P : ℚ) : ℚ := a - P * ⌊a / P⌋

/-- One folded time: `(t - t0 + 0.5*P) % P - 0.5*P`. -/
def foldTime (P t0 t : ℚ) : ℚ := pymod (t - t0 + (1/2) * P) P - (1/2) * P

/-- Elementwise folding of an array of observation times (`x_fold`). -/
def foldTimes (ts : List ℚ) (P t0 : ℚ) : List ℚ := ts.map (foldTime P t0)

/-! ## Nearest-time index lookup

Source (`tesscut_exomast/TESScut_ExoMAST_exercises.ipynb`):
`return (np.abs(cutout_table['TIME'] - btjd)).argmin()`.
`np.argmin` returns the first index attaining the minimum value and raises
`ValueError` on an empty array, modelled by `Option`. -/

/-- `np.argmin`: first index of the minimum value, together with that value;
`none` on the empty list (numpy raises on an empty array). -/
def argminIdx : List ℚ → Option (ℕ × ℚ)
  | [] => none
  | x :: tl =>
    match argminIdx tl with
    | none => some (0, x)
    | some (j, m) => if x ≤ m then some (0, x) else some (j + 1, m)

/-- `find_index`: index of the entry of `times` closest in absolute value to
the query `btjd`. -/
def find_index (times : List ℚ) (btjd : ℚ) : Option ℕ :=
  (argminIdx (times.map fun t => |t - btjd|)).map Prod.fst


/-! ## JSON-to-table conversion

Source (`tesscut_exomast/TESScut_ExoMAST_exercises.ipynb`), `json_to_table`:
for each field descriptor `(colname, datatype)` in order, the column name is
stripped, the declared type is rewritten (`varchar(N)` to a fixed-width
unicode dtype `U<N>` via the regex `varchar\((\d+)\)`, then `real` to
`float`), and `data_table[col] = np.array([x.get(col, None) for x in data],
dtype=atype)` assigns the converted cells. -/

/-- A JSON value appearing in a row mapping. -/
inductive JsonVal where
  | str : String → JsonVal
  | num : ℚ → JsonVal
  | null : JsonVal
  deriving DecidableEq

/-- A row mapping (Python dict) from column names to JSON values. -/
abbrev Row := List (String × JsonVal)

/-- Python `x.get(col, None)`: the value under a key, or `None` if absent. -/
def rowGet (r : Row) (k : String) : JsonVal :=
  match List.find? (fun p => decide (p.1 = k)) r with
  | some p => p.2
  | none => JsonVal.null

/-- A numpy array element after dtype conversion: a (truncated) string for a
fixed-width unicode column, a rational for a float column, or float `nan`. -/
inductive CellVal where
  | str : String → CellVal
  | real : ℚ → CellVal
  | nan : CellVal
  deriving DecidableEq

/-- A column of the astropy table: name, numpy dtype string, and cells. -/
structure TableColumn where
  name : String
  dtype : String
  cells : List CellVal
  deriving DecidableEq

/-- The longest digit run at the head of a character list, and the rest
(the greedy `\d+` of the regex). -/
def takeDigits : List Char → List Char × List Char
  | [] => ([], [])
  | c :: tl =>
    if c.isDigit then
      let p := takeDigits tl
      (c :: p.1, p.2)
    else ([], c :: tl)

/-- Match the regex `varchar\((\d+)\)` at the head of the list, returning the
digit group. -/
def matchVarcharAt (l : List Char) : Option (List Char) :=
  let pat := "varchar(".data
  if pat.isPrefixOf l then
    let p := takeDigits (l.drop pat.length)
    match p.1, p.2 with
    | [], _ => none
    | ds, ')' :: _ => some ds
    | _, _ => none
  else none

/-- `re.search` for the pattern `varchar\((\d+)\)`: try every start position
from the left, returning the first full match's digit group. -/
def rxSearchVarchar : List Char → Option (List Char)
  | [] => none
  | c :: tl =>
    match matchVarcharAt (c :: tl) with
    | some ds => some ds
    | none => rxSearchVarchar tl

/-- Python `sub in s` substring containment. -/
def containsSub (p : List Char) : List Char → Bool
  | [] => p.isEmpty
  | c :: tl => p.isPrefixOf (c :: tl) || containsSub p tl

/-- The dtype rewriting in the loop body of `json_to_table`: if `"varchar"`
occurs in the declared type, replace it by `"U" ++ <regex digit group>`
(`none` models the `AttributeError` when `rx.search` finds no match); then a
resulting `"real"` becomes `"float"`. -/
def convertType (atype : String) : Option String :=
  let step1 : Option String :=
    if containsSub "varchar".data atype.data then
      (rxSearchVarchar atype.data).map fun ds => "U" ++ String.mk ds
    else some atype
  step1.map fun a1 => if a1 = "real" then "float" else a1

/-- Python `str.strip()`: remove leading and trailing whitespace
(structural model of `String.trim`). -/
def stripName (s : String) : String :=
  String.mk (((s.data.dropWhile Char.isWhitespace).reverse.dropWhile
    Char.isWhitespace).reverse)

/-- Python `str` applied to a JSON value, as numpy does when filling a
fixed-width unicode column; rendering of numeric values to decimal text is
outside the modelled fragment. -/
def pyStrOfJson : JsonVal → Option String
  | .str s => some s
  | .null => some "None"
  | .num _ => none

/-- Numeric value of a digit run (evaluated only at concrete inputs). -/
def digitsToNat (ds : List Char) : ℕ :=
  ds.foldl (fun acc c => 10 * acc + (c.toNat - '0'.toNat)) 0

/-- Elementwise `np.array(values, dtype=atype)` conversion, on the fragment
of numpy dtypes this notebook produces: `"U" ++ digits` (values stringified
and truncated to the declared width; in particular a missing key's `None`
becomes the text `"None"` truncated) and `"float"` (`None` becomes `nan`).
Conversions outside this fragment are modelled as failures. -/
def convertCell (dtype : String) (v : JsonVal) : Option CellVal :=
  match dtype.data with
  | 'U' :: rest =>
    if !rest.isEmpty && rest.all Char.isDigit then
      (pyStrOfJson v).map fun s => CellVal.str (String.mk (s.data.take (digitsToNat rest)))
    else none
  | _ =>
    if dtype = "float" then
      match v with
      | .num q => some (CellVal.real q)
      | .null => some CellVal.nan
      | .str _ => none
    else none

/-- The cells of one column: `[x.get(col, None) for x in data]` converted
elementwise to the column dtype. -/
def convertCells (dt col : String) : List Row → Option (List CellVal)
  | [] => some []
  | r :: rs =>
    match convertCell dt (rowGet r col), convertCells dt col rs with
    | some c, some cs => some (c :: cs)
    | _, _ => none

/-- One loop iteration of `json_to_table`: strip the column name, rewrite the
declared type, and convert every row's cell. -/
def buildColumn (colname atype : String) (data : List Row) : Option TableColumn :=
  match convertType atype with
  | none => none
  | some dt =>
    match convertCells dt (stripName colname) data with
    | none => none
    | some cells => some ⟨stripName colname, dt, cells⟩

/-- `t.find?` by column name: the column stored under a name, if any. -/
def getCol (t : List TableColumn) (n : String) : Option TableColumn :=
  List.find? (fun c => decide (c.name = n)) t

/-- `data_table[col] = arr`: astropy `Table.__setitem__` replaces an existing
column of the same name in place, otherwise appends the new column. -/
def setItem (t : List TableColumn) (c : TableColumn) : List TableColumn :=
  if t.any (fun c0 => decide (c0.name = c.name)) then
    t.map fun c0 => if c0.name = c.name then c else c0
  else t ++ [c]

/-- The `for col, atype in ...: data_table[col] = ...` loop. -/
def jsonLoop (data : List Row) :
    List TableColumn → List (String × String) → Option (List TableColumn)
  | t, [] => some t
  | t, f :: fs =>
    match buildColumn f.1 f.2 data with
    | none => none
    | some c => jsonLoop data (setItem t c) fs

/-- `json_to_table`: fold the loop starting from the empty table. -/
def json_to_table (fields : List (String × String)) (data : List Row) :
    Option (List TableColumn) :=
  jsonLoop data [] fields

/-! ## Frame animation builder

Source (`tesscut_exomast/TESScut_ExoMAST_exercises.ipynb`), `make_animation`:
Python defaults are `start_frame=0`, `end_frame=None`, `vmin=None`,
`vmax=None`, `delay=50`. The body tests `if not vmin`, `if not vmax`,
`if not end_frame` (Python truthiness: `None` and `0` are both falsy),
replacing falsy values by `np.min(data_array)`, `np.max(data_array)` and
`len(data_array) - 1`; it then renders `num_frames = end_frame - start_frame
+ 1` frames, frame `i` showing `data_array[i + start_frame]` with the shared
`vmin`/`vmax`. -/

/-- A 2D image frame. -/
abbrev Frame := List (List ℚ)

/-- All pixel values of the cube, in order. -/
def flattenCube (d : List Frame) : List ℚ := (d.map List.join).join

/-- `np.min` over the whole cube; `none` on an empty array (numpy raises). -/
def listMin : List ℚ → Option ℚ
  | [] => none
  | x :: tl =>
    match listMin tl with
    | none => some x
    | some m => some (min x m)

/-- `np.max` over the whole cube; `none` on an empty array (numpy raises). -/
def listMax : List ℚ → Option ℚ
  | [] => none
  | x :: tl =>
    match listMax tl with
    | none => some x
    | some m => some (max x m)

/-- Python truthiness of an optional float: `None` and `0` are falsy. -/
def truthyQ : Option ℚ → Bool
  | none => false
  | some q => decide (q ≠ 0)

/-- Python truthiness of an optional int: `None` and `0` are falsy. -/
def truthyInt : Option ℤ → Bool
  | none => false
  | some e => decide (e ≠ 0)

/-- Python sequence indexing: negative indices count from the end; an
out-of-range index raises `IndexError`, modelled by `none`. -/
def pyIndex {α : Type} (l : List α) (i : ℤ) : Option α :=
  if 0 ≤ i then l.get? i.toNat
  else if 0 ≤ i + l.length then l.get? (i + l.length).toNat
  else none

/-- One frame as rendered by `animate`: the index into the cube it shows and
the color-scale bounds passed to `imshow`. -/
structure RenderedFrame where
  idx : ℤ
  vmin : ℚ
  vmax : ℚ
  deriving DecidableEq

/-- The produced animation: the sequence of rendered frames and the
inter-frame delay in milliseconds. -/
structure AnimationResult where
  frames : List RenderedFrame
  delay : ℕ
  deriving DecidableEq

/-- `make_animation`. The three `Option` scrutinees model the fallible steps
(`np.min`/`np.max` on an empty array, the initial
`ax.imshow(data_array[start_frame])` on an out-of-range index); each failure
propagates as a Python exception, so their relative order is unobservable. -/
def make_animation (data_array : List Frame) (start_frame : ℤ)
    (end_frame : Option ℤ) (vmin vmax : Option ℚ) (delay : ℕ) :
    Option AnimationResult :=
  match (if truthyQ vmin then vmin else listMin (flattenCube data_array)),
      (if truthyQ vmax then vmax else listMax (flattenCube data_array)),
      pyIndex data_array start_frame with
  | some vm, some vM, some _ =>
    let endF : ℤ :=
      if truthyInt end_frame then end_frame.getD 0
      else (data_array.length : ℤ) - 1
    let numFrames : ℤ := endF - start_frame + 1
    some ⟨(List.range numFrames.toNat).map
      fun (i : ℕ) => (⟨(i : ℤ) + start_frame, vm, vM⟩ : RenderedFrame), delay⟩
  | _, _, _ => none

end TessWorkshop

namespace TessWorkshop

/-! ### Lemmas about `pymod` -/

theorem pymod_eq_fract_mul (a P : ℚ) (hP : P ≠ 0) :
    pymod a P = P * Int.fract (a / P) := by
  have h1 : P * (a / P) = a := by field_simp
  rw [pymod, Int.fract, mul_sub, h1]

theorem pymod_nonneg (a P : ℚ) (hP : 0 < P) : 0 ≤ pymod a P := by
  rw [pymod_eq_fract_mul a P hP.ne']
  exact mul_nonneg hP.le (Int.fract_nonneg _)

theorem pymod_lt (a P : ℚ) (hP : 0 < P) : pymod a P < P := by
  rw [pymod_eq_fract_mul a P hP.ne']
  calc P * Int.fract (a / P) < P * 1 := by
        exact mul_lt_mul_of_pos_left (Int.fract_lt_one _) hP
    _ = P := mul_one P

theorem pymod_add_int_mul (a P : ℚ) (k : ℤ) (hP : P ≠ 0) :
    pymod (a + k * P) P = pymod a P := by
  unfold pymod
  have h1 : (a + k * P) / P = a / P + k := by
    field_simp
  rw [h1, Int.floor_add_int]
  push_cast
  ring

/-! ### Lemmas about `argminIdx` -/

theorem argminIdx_eq_none (l : List ℚ) : argminIdx l = none ↔ l = [] := by
  cases l with
  | nil => simp [argminIdx]
  | cons x tl =>
    simp only [argminIdx]
    cases argminIdx tl with
    | none => simp
    | some p =>
      obtain ⟨j, m⟩ := p
      by_cases h : x ≤ m <;> simp [h]

theorem argminIdx_spec (l : List ℚ) (j : ℕ) (m : ℚ)
    (h : argminIdx l = some (j, m)) :
    l.get? j = some m ∧ (∀ k y, l.get? k = some y → m ≤ y) ∧
      (∀ k y, k < j → l.get? k = some y → m < y) := by
  induction l generalizing j m with
  | nil => simp [argminIdx] at h
  | cons x tl ih =>
    simp only [argminIdx] at h
    cases htl : argminIdx tl with
    | none =>
      rw [htl] at h
      obtain ⟨rfl, rfl⟩ : j = 0 ∧ m = x := by
        simpa [eq_comm] using h
      have htl' : tl = [] := (argminIdx_eq_none tl).mp htl
      subst htl'
      refine ⟨rfl, ?_, ?_⟩
      · intro k y hy
        cases k with
        | zero =>
          simp only [List.get?_cons_zero, Option.some.injEq] at hy
          exact le_of_eq hy
        | succ k => simp at hy
      · intro k y hk hy
        omega
    | some p =>
      obtain ⟨j', m'⟩ := p
      rw [htl] at h
      obtain ⟨hget, hmin, hfirst⟩ := ih j' m' htl
      by_cases hx : x ≤ m'
      · obtain ⟨rfl, rfl⟩ : j = 0 ∧ m = x := by
          simpa [hx, eq_comm] using h
        refine ⟨rfl, ?_, ?_⟩
        · intro k y hy
          cases k with
          | zero =>
            simp only [List.get?_cons_zero, Option.some.injEq] at hy
            exact le_of_eq hy
          | succ k =>
            simp only [List.get?_cons_succ] at hy
            exact le_trans hx (hmin k y hy)
        · intro k y hk hy
          omega
      · obtain ⟨rfl, rfl⟩ : j = j' + 1 ∧ m = m' := by
          simpa [hx, eq_comm] using h
        refine ⟨by simpa using hget, ?_, ?_⟩
        · intro k y hy
          cases k with
          | zero =>
            simp only [List.get?_cons_zero, Option.some.injEq] at hy
            subst hy
            exact le_of_lt (lt_of_not_le hx)
          | succ k =>
            simp only [List.get?_cons_succ] at hy
            exact hmin k y hy
        · intro k y hk hy
          cases k with
          | zero =>
            simp only [List.get?_cons_zero, Option.some.injEq] at hy
            subst hy
            exact lt_of_not_le hx
          | succ k =>
            simp only [List.get?_cons_succ] at hy
            exact hfirst k y (by omega) hy


/-! ### Lemmas about `convertType` -/

theorem takeDigits_all_digits (ds rest : List Char) (hds : ds.all Char.isDigit)
    (hrest : ∀ c tl, rest = c :: tl → c.isDigit = false) :
    takeDigits (ds ++ rest) = (ds, rest) := by
  induction ds with
  | nil =>
    cases rest with
    | nil => rfl
    | cons c tl =>
      have hc := hrest c tl rfl
      simp [takeDigits, hc]
  | cons d ds ih =>
    simp only [List.all_cons, Bool.and_eq_true] at hds
    simp [takeDigits, hds.1, ih hds.2]

theorem matchVarcharAt_exact (s : String) (h1 : s.data ≠ [])
    (h2 : s.data.all Char.isDigit) :
    matchVarcharAt
      ('v' :: 'a' :: 'r' :: 'c' :: 'h' :: 'a' :: 'r' :: '(' :: (s.data ++ [')'])) =
      some s.data := by
  show matchVarcharAt ("varchar(".data ++ (s.data ++ [')'])) = some s.data
  unfold matchVarcharAt
  rw [if_pos, List.drop_left]
  · rw [takeDigits_all_digits s.data [')'] h2 (by intro c tl hc; cases hc; rfl)]
    cases hs : s.data with
    | nil => exact absurd hs h1
    | cons d ds => simp
  · rw [List.isPrefixOf_iff_prefix]
    exact List.prefix_append _ _

theorem convertType_varchar (s : String) (h1 : s.data ≠ [])
    (h2 : s.data.all Char.isDigit) :
    convertType ("varchar(" ++ s ++ ")") = some ("U" ++ s) := by
  have hdata : ("varchar(" ++ s ++ ")").data =
      'v' :: 'a' :: 'r' :: 'c' :: 'h' :: 'a' :: 'r' :: '(' :: (s.data ++ [')']) := rfl
  have hcontains : containsSub "varchar".data
      ('v' :: 'a' :: 'r' :: 'c' :: 'h' :: 'a' :: 'r' :: '(' :: (s.data ++ [')'])) = true := rfl
  have hsearch : rxSearchVarchar
      ('v' :: 'a' :: 'r' :: 'c' :: 'h' :: 'a' :: 'r' :: '(' :: (s.data ++ [')'])) =
      some s.data := by
    rw [rxSearchVarchar, matchVarcharAt_exact s h1 h2]
  have hne : ("U" ++ s) ≠ "real" := by
    intro hcontra
    have h' := congrArg String.data hcontra
    rw [String.data_append] at h'
    simp at h'
  unfold convertType
  rw [hdata, if_pos hcontains, hsearch]
  have hmk : String.mk s.data = s := rfl
  simp [hmk, hne]

theorem convertType_real : convertType "real" = some "float" := rfl

theorem convertType_other (d : String)
    (hc : containsSub "varchar".data d.data = false) (hd : d ≠ "real") :
    convertType d = some d := by
  unfold convertType
  rw [if_neg (by simp [hc]), Option.map_some']
  simp [hd]

/-! ### Lemmas about `setItem`, `getCol` and the `json_to_table` loop -/

theorem find?_map_replace (t : List TableColumn) (c : TableColumn)
    (h : t.any (fun c0 => decide (c0.name = c.name)) = true) :
    List.find? (fun x => decide (x.name = c.name))
      (t.map fun c0 => if c0.name = c.name then c else c0) = some c := by
  induction t with
  | nil => simp at h
  | cons c0 tl ih =>
    by_cases h0 : c0.name = c.name
    · simp only [List.map_cons, if_pos h0]
      rw [List.find?_cons_of_pos]
      simp
    · simp only [List.map_cons, if_neg h0]
      rw [List.find?_cons_of_neg _ (by simp [h0])]
      apply ih
      simp only [List.any_cons, Bool.or_eq_true] at h
      rcases h with h | h
      · exact absurd (of_decide_eq_true h) h0
      · exact h

theorem find?_map_replace_ne (t : List TableColumn) (c : TableColumn) (n : String)
    (hne : c.name ≠ n) :
    List.find? (fun x => decide (x.name = n))
      (t.map fun c0 => if c0.name = c.name then c else c0) =
      List.find? (fun x => decide (x.name = n)) t := by
  induction t with
  | nil => rfl
  | cons c0 tl ih =>
    by_cases h0 : c0.name = c.name
    · simp only [List.map_cons, if_pos h0]
      rw [List.find?_cons_of_neg _ (by simp [hne]),
        List.find?_cons_of_neg _ (by simp [h0 ▸ hne]), ih]
    · simp only [List.map_cons, if_neg h0]
      by_cases hn : c0.name = n
      · rw [List.find?_cons_of_pos _ (by simp [hn]),
          List.find?_cons_of_pos _ (by simp [hn])]
      · rw [List.find?_cons_of_neg _ (by simp [hn]),
          List.find?_cons_of_neg _ (by simp [hn]), ih]

theorem getCol_setItem_self (t : List TableColumn) (c : TableColumn) :
    getCol (setItem t c) c.name = some c := by
  unfold setItem getCol
  split
  next h => exact find?_map_replace t c h
  next h =>
    rw [List.find?_append]
    have h1 : List.find? (fun x => decide (x.name = c.name)) t = none := by
      rw [List.find?_eq_none]
      intro x hx
      simp only [decide_eq_true_eq]
      intro hxc
      exact h (List.any_eq_true.mpr ⟨x, hx, by simp [hxc]⟩)
    rw [h1]
    simp [List.find?]

theorem getCol_setItem_ne (t : List TableColumn) (c : TableColumn) (n : String)
    (hne : c.name ≠ n) : getCol (setItem t c) n = getCol t n := by
  unfold setItem getCol
  split
  next h => exact find?_map_replace_ne t c n hne
  next h =>
    rw [List.find?_append]
    have h2 : List.find? (fun x => decide (x.name = n)) [c] = none := by
      simp [hne]
    rw [h2]
    simp

theorem buildColumn_spec (colname atype : String) (data : List Row)
    (c : TableColumn) (h : buildColumn colname atype data = some c) :
    c.name = stripName colname ∧ convertType atype = some c.dtype := by
  unfold buildColumn at h
  cases hct : convertType atype with
  | none => rw [hct] at h; simp at h
  | some dt =>
    rw [hct] at h
    replace h : (match convertCells dt (stripName colname) data with
        | none => none
        | some cells => some (⟨stripName colname, dt, cells⟩ : TableColumn)) =
        some c := h
    cases hcc : convertCells dt (stripName colname) data with
    | none => rw [hcc] at h; simp at h
    | some cells =>
      rw [hcc] at h
      obtain rfl : c = ⟨stripName colname, dt, cells⟩ := by
        simpa [eq_comm] using h
      exact ⟨rfl, rfl⟩

theorem jsonLoop_getCol (data : List Row) (n : String)
    (fs : List (String × String)) :
    ∀ t0 t, jsonLoop data t0 fs = some t →
      getCol t n = (fs.reverse.find? fun f => decide (stripName f.1 = n)).elim
        (getCol t0 n) (fun fd => buildColumn fd.1 fd.2 data) := by
  induction fs with
  | nil =>
    intro t0 t h
    simp only [jsonLoop, Option.some.injEq] at h
    subst h
    simp
  | cons f fs ih =>
    intro t0 t h
    simp only [jsonLoop] at h
    cases hb : buildColumn f.1 f.2 data with
    | none => rw [hb] at h; simp at h
    | some c =>
      rw [hb] at h
      replace h : jsonLoop data (setItem t0 c) fs = some t := h
      have hrec := ih (setItem t0 c) t h
      obtain ⟨hname, -⟩ := buildColumn_spec f.1 f.2 data c hb
      rw [List.reverse_cons, List.find?_append]
      cases hf : fs.reverse.find? (fun g => decide (stripName g.1 = n)) with
      | some fd =>
        rw [hf] at hrec
        simpa using hrec
      | none =>
        rw [hf] at hrec
        simp only [Option.elim] at hrec
        by_cases hp : stripName f.1 = n
        · have hone : List.find? (fun g => decide (stripName g.1 = n)) [f] = some f := by
            simp [hp]
          rw [hone]
          have hcn : c.name = n := hname.trans hp
          have hself : getCol (setItem t0 c) n = some c := by
            rw [← hcn]
            exact getCol_setItem_self t0 c
          simp only [Option.none_or, Option.elim]
          rw [hrec, hself, hb]
        · have hone : List.find? (fun g => decide (stripName g.1 = n)) [f] = none := by
            simp [hp]
          rw [hone]
          simp only [Option.none_or, Option.elim]
          rw [hrec, getCol_setItem_ne t0 c n (by rw [hname]; exact hp)]

theorem jsonLoop_append (data : List Row) (fs : List (String × String)) :
    ∀ t0 t,
      (∀ f ∈ fs, t0.any (fun c0 => decide (c0.name = stripName f.1)) = false) →
      ((fs.map fun f => stripName f.1).Nodup) →
      jsonLoop data t0 fs = some t →
      ∃ cs, t = t0 ++ cs ∧
        List.Forall₂ (fun (c : TableColumn) (f : String × String) =>
          buildColumn f.1 f.2 data = some c) cs fs := by
  induction fs with
  | nil =>
    intro t0 t _ _ h
    simp only [jsonLoop, Option.some.injEq] at h
    exact ⟨[], by simp [h], List.Forall₂.nil⟩
  | cons f fs ih =>
    intro t0 t havoid hnodup h
    simp only [jsonLoop] at h
    cases hb : buildColumn f.1 f.2 data with
    | none => rw [hb] at h; simp at h
    | some c =>
      rw [hb] at h
      replace h : jsonLoop data (setItem t0 c) fs = some t := h
      obtain ⟨hname, -⟩ := buildColumn_spec f.1 f.2 data c hb
      have hsi : setItem t0 c = t0 ++ [c] := by
        unfold setItem
        rw [if_neg]
        rw [hname]
        intro hc
        have := havoid f (by simp)
        rw [this] at hc
        exact Bool.false_ne_true hc
      rw [hsi] at h
      simp only [List.map_cons, List.nodup_cons] at hnodup
      obtain ⟨hnotin, hnodup2⟩ := hnodup
      have havoid2 : ∀ g ∈ fs,
          (t0 ++ [c]).any (fun c0 => decide (c0.name = stripName g.1)) = false := by
        intro g hg
        rw [List.any_append]
        have ht0 := havoid g (List.mem_cons_of_mem f hg)
        have hc : (decide (c.name = stripName g.1)) = false := by
          rw [hname]
          simp only [decide_eq_false_iff_not]
          intro heq
          exact hnotin (heq ▸ List.mem_map_of_mem (fun f => stripName f.1) hg)
        simp [ht0, hc]
      obtain ⟨cs, hcs, hfa⟩ := ih (t0 ++ [c]) t havoid2 hnodup2 h
      refine ⟨c :: cs, ?_, List.Forall₂.cons hb hfa⟩
      rw [hcs, List.append_assoc]
      rfl

/-! ## Claim theorems: folding and index lookup -/

/-- C1: for every array of observation times `ts`, every period `P > 0` and
every epoch `t0`, each element of the folded array
`((t - t0 + 0.5*P) % P) - 0.5*P` lies in the half-open interval
`[-0.5*P, 0.5*P)`. -/
theorem fold_range (ts : List ℚ) (P t0 : ℚ) (hP : 0 < P) :
    ∀ v ∈ foldTimes ts P t0, -((1/2) * P) ≤ v ∧ v < (1/2) * P := by
  intro v hv
  rw [foldTimes, List.mem_map] at hv
  obtain ⟨t, _, rfl⟩ := hv
  unfold foldTime
  constructor
  · have := pymod_nonneg (t - t0 + (1/2) * P) P hP
    linarith
  · have := pymod_lt (t - t0 + (1/2) * P) P hP
    linarith

/-- Witness for `fold_range` at `ts = [0, 1, 7]`, `P = 2`, `t0 = 0`. -/
theorem fold_range_witness :
    (0:ℚ) < 2 ∧ ∀ v ∈ foldTimes [0, 1, 7] 2 0, -((1/2) * 2) ≤ v ∧ v < (1/2) * 2 :=
  ⟨by norm_num, fold_range [0, 1, 7] 2 0 (by norm_num)⟩

/-- C2: the folding transform is periodic: for every period `P > 0`, epoch
`t0` and integer `k`, `fold(t0 + k*P) = fold(t0)`. -/
theorem fold_periodic (P t0 : ℚ) (hP : 0 < P) (k : ℤ) :
    foldTime P t0 (t0 + k * P) = foldTime P t0 t0 := by
  unfold foldTime
  congr 1
  have h1 : t0 + k * P - t0 + (1/2) * P = (t0 - t0 + (1/2) * P) + k * P := by
    ring
  rw [h1, pymod_add_int_mul _ _ _ hP.ne']

/-- Witness for `fold_periodic` at `P = 2`, `t0 = 5`, `k = 3`. -/
theorem fold_periodic_witness :
    (0:ℚ) < 2 ∧ foldTime 2 5 (5 + ((3:ℤ) : ℚ) * 2) = foldTime 2 5 5 :=
  ⟨by norm_num, fold_periodic 2 5 (by norm_num) 3⟩

/-- C3: on every non-empty list of timestamps, `find_index` returns an index
of an entry minimizing the absolute difference to the query, and every
earlier entry has a strictly larger absolute difference (first-occurrence tie
break); in particular `find_index [0,1,2,5,10] 6 = some 3`. -/
theorem find_index_nearest :
    (∀ (times : List ℚ) (q : ℚ), times ≠ [] →
      ∃ i ti, find_index times q = some i ∧ times.get? i = some ti ∧
        (∀ k tk, times.get? k = some tk → |ti - q| ≤ |tk - q|) ∧
        (∀ k tk, k < i → times.get? k = some tk → |ti - q| < |tk - q|)) ∧
    find_index [0, 1, 2, 5, 10] 6 = some 3 := by
  constructor
  · intro times q hne
    cases harg : argminIdx (times.map fun t => |t - q|) with
    | none =>
      rw [argminIdx_eq_none, List.map_eq_nil] at harg
      exact absurd harg hne
    | some p =>
      obtain ⟨j, m⟩ := p
      obtain ⟨hget, hmin, hfirst⟩ := argminIdx_spec _ j m harg
      rw [List.get?_map] at hget
      cases hj : times.get? j with
      | none => rw [hj] at hget; simp at hget
      | some tj =>
        rw [hj] at hget
        simp only [Option.map_some', Option.some.injEq] at hget
        refine ⟨j, tj, ?_, hj, ?_, ?_⟩
        · rw [find_index, harg]; rfl
        · intro k tk hk
          have := hmin k |tk - q| (by rw [List.get?_map, hk]; rfl)
          rw [hget]; exact this
        · intro k tk hkj hk
          have := hfirst k |tk - q| hkj (by rw [List.get?_map, hk]; rfl)
          rw [hget]; exact this
  · norm_num [find_index, argminIdx]

/-- Witness for `find_index_nearest` at `times = [0,1,2,5,10]`, `q = 6`. -/
theorem find_index_nearest_witness :
    ([0, 1, 2, 5, 10] : List ℚ) ≠ [] ∧
    ∃ i ti, find_index [0, 1, 2, 5, 10] 6 = some i ∧
      ([0, 1, 2, 5, 10] : List ℚ).get? i = some ti ∧
      (∀ k tk, ([0, 1, 2, 5, 10] : List ℚ).get? k = some tk →
        |ti - 6| ≤ |tk - 6|) ∧
      (∀ k tk, k < i → ([0, 1, 2, 5, 10] : List ℚ).get? k = some tk →
        |ti - 6| < |tk - 6|) :=
  ⟨by simp, find_index_nearest.1 [0, 1, 2, 5, 10] 6 (by simp)⟩

/-- C4: `find_index` fails exactly on the empty timestamp list: it returns
`none` iff the list is empty. -/
theorem find_index_none_iff_empty (times : List ℚ) (q : ℚ) :
    find_index times q = none ↔ times = [] := by
  rw [find_index, Option.map_eq_none', argminIdx_eq_none, List.map_eq_nil]


/-! ## Claim theorems: JSON-to-table conversion -/

/-- C5: whenever `json_to_table` produces a table (and the stripped column
names are distinct), its columns correspond 1-1, in order, to the field
descriptors, each column's dtype being the converted declared type; the
conversion maps `varchar(N)` to the fixed-width string dtype `U<N>`, `real`
to `float`, and leaves any other declared type unchanged. -/
theorem json_to_table_schema :
    (∀ (fields : List (String × String)) (data : List Row)
        (t : List TableColumn),
      (fields.map fun f => stripName f.1).Nodup →
      json_to_table fields data = some t →
      List.Forall₂ (fun (c : TableColumn) (f : String × String) =>
        c.name = stripName f.1 ∧ convertType f.2 = some c.dtype) t fields) ∧
    (∀ s : String, s.data ≠ [] → s.data.all Char.isDigit →
      convertType ("varchar(" ++ s ++ ")") = some ("U" ++ s)) ∧
    convertType "real" = some "float" ∧
    (∀ d : String, containsSub "varchar".data d.data = false → d ≠ "real" →
      convertType d = some d) := by
  refine ⟨?_, convertType_varchar, convertType_real, convertType_other⟩
  intro fields data t hnodup ht
  obtain ⟨cs, hcs, hfa⟩ :=
    jsonLoop_append data fields [] t (by intro f _; rfl) hnodup ht
  rw [List.nil_append] at hcs
  subst hcs
  exact hfa.imp fun c f hb => buildColumn_spec f.1 f.2 data c hb

/-- Witness for `json_to_table_schema` at the two-descriptor field list
`[("a","varchar(3)"), ("b","real")]` and a single row `{"a": "x"}`. -/
theorem json_to_table_schema_witness :
    (([("a", "varchar(3)"), ("b", "real")].map fun f => stripName f.1).Nodup ∧
    List.Forall₂ (fun (c : TableColumn) (f : String × String) =>
        c.name = stripName f.1 ∧ convertType f.2 = some c.dtype)
      [⟨"a", "U3", [CellVal.str "x"]⟩, ⟨"b", "float", [CellVal.nan]⟩]
      [("a", "varchar(3)"), ("b", "real")]) :=
  ⟨by decide,
    json_to_table_schema.1 [("a", "varchar(3)"), ("b", "real")]
      [[("a", JsonVal.str "x")]]
      [⟨"a", "U3", [CellVal.str "x"]⟩, ⟨"b", "float", [CellVal.nan]⟩]
      (by decide) (by rfl)⟩

/-- C6 counterexample: on the spec's own example (fields
`[{colname:"a",datatype:"varchar(3)"}, {colname:"b",datatype:"real"}]`, data
`[{"a":"xy","b":1.5},{"b":2.5}]`), the missing key in row 2 does NOT become
the empty-string placeholder: numpy stringifies Python `None` and truncates
it to the column width, so column `a` is `["xy", "Non"]`, not `["xy", ""]`. -/
theorem json_missing_key_cex :
    (json_to_table [("a", "varchar(3)"), ("b", "real")]
        [[("a", JsonVal.str "xy"), ("b", JsonVal.num (3/2))],
         [("b", JsonVal.num (5/2))]]).bind (fun t => getCol t "a") =
      some ⟨"a", "U3", [CellVal.str "xy", CellVal.str "Non"]⟩ ∧
    CellVal.str "Non" ≠ CellVal.str "" :=
  ⟨rfl, by decide⟩

/-- C6 amended: each cell is looked up by (stripped) column name with `None`
for a missing key, and no error is raised; for a `real` (float) column the
`None` becomes `nan`, but for a `varchar(N)` (fixed-width string) column it
becomes `str(None) = "None"` truncated to width N (`"Non"` for N = 3); on
the spec's example, column `a` is `["xy", "Non"]` and column `b` is
`[1.5, 2.5]`. -/
theorem json_missing_key_amended :
    json_to_table [("a", "varchar(3)"), ("b", "real")]
        [[("a", JsonVal.str "xy"), ("b", JsonVal.num (3/2))],
         [("b", JsonVal.num (5/2))]] =
      some [⟨"a", "U3", [CellVal.str "xy", CellVal.str "Non"]⟩,
            ⟨"b", "float", [CellVal.real (3/2), CellVal.real (5/2)]⟩] ∧
    json_to_table [("b", "real")] [[], [("b", JsonVal.num 1)]] =
      some [⟨"b", "float", [CellVal.nan, CellVal.real 1]⟩] :=
  ⟨rfl, rfl⟩

/-- C7: when several field descriptors carry the same (stripped) column
name, the produced table's column under that name is exactly the column
built from the LAST such descriptor (later assignments by name overwrite
earlier ones). -/
theorem json_to_table_last_wins (fields : List (String × String))
    (data : List Row) (t : List TableColumn) (n : String)
    (ht : json_to_table fields data = some t)
    (hdup : 2 ≤ (fields.filter fun f => decide (stripName f.1 = n)).length) :
    ∃ fd : String × String,
      fields.reverse.find? (fun f => decide (stripName f.1 = n)) = some fd ∧
      getCol t n = buildColumn fd.1 fd.2 data := by
  have hmem : ∃ f ∈ fields.reverse, decide (stripName f.1 = n) = true := by
    have hpos : 0 < (fields.filter fun f => decide (stripName f.1 = n)).length := by
      omega
    rw [List.length_pos] at hpos
    obtain ⟨f, hf⟩ := List.exists_mem_of_ne_nil _ hpos
    rw [List.mem_filter] at hf
    exact ⟨f, List.mem_reverse.mpr hf.1, hf.2⟩
  have hsome : (fields.reverse.find? fun f => decide (stripName f.1 = n)).isSome := by
    rw [List.find?_isSome]
    obtain ⟨f, hf1, hf2⟩ := hmem
    exact ⟨f, hf1, hf2⟩
  obtain ⟨fd, hfd⟩ := Option.isSome_iff_exists.mp hsome
  refine ⟨fd, hfd, ?_⟩
  have := jsonLoop_getCol data n fields [] t ht
  rw [hfd] at this
  exact this

/-- Witness for `json_to_table_last_wins`: two descriptors both naming
column `a`, the later with width 1; the resulting column is the width-1
one. -/
theorem json_to_table_last_wins_witness :
    2 ≤ ([("a", "varchar(3)"), ("a", "varchar(1)")].filter
        fun f => decide (stripName f.1 = "a")).length ∧
    ∃ fd : String × String,
      [("a", "varchar(3)"), ("a", "varchar(1)")].reverse.find?
          (fun f => decide (stripName f.1 = "a")) = some fd ∧
      getCol [⟨"a", "U1", [CellVal.str "x"]⟩] "a" =
        buildColumn fd.1 fd.2 [[("a", JsonVal.str "xy")]] :=
  ⟨by decide,
    json_to_table_last_wins [("a", "varchar(3)"), ("a", "varchar(1)")]
      [[("a", JsonVal.str "xy")]] [⟨"a", "U1", [CellVal.str "x"]⟩] "a"
      (by rfl) (by decide)⟩


/-! ### Lemmas about `make_animation` -/

theorem listMin_eq_none (l : List ℚ) : listMin l = none ↔ l = [] := by
  cases l with
  | nil => simp [listMin]
  | cons x tl =>
    simp only [listMin]
    cases listMin tl <;> simp

theorem listMax_eq_none (l : List ℚ) : listMax l = none ↔ l = [] := by
  cases l with
  | nil => simp [listMax]
  | cons x tl =>
    simp only [listMax]
    cases listMax tl <;> simp

theorem make_animation_eq_some (data : List Frame) (s : ℤ) (e : Option ℤ)
    (vmin vmax : Option ℚ) (d : ℕ) (a : AnimationResult) :
    make_animation data s e vmin vmax d = some a ↔
    ∃ vm vM fr,
      (if truthyQ vmin then vmin else listMin (flattenCube data)) = some vm ∧
      (if truthyQ vmax then vmax else listMax (flattenCube data)) = some vM ∧
      pyIndex data s = some fr ∧
      a = ⟨(List.range
          (((if truthyInt e then e.getD 0 else (data.length : ℤ) - 1) - s + 1).toNat)).map
          (fun (i : ℕ) => (⟨(i : ℤ) + s, vm, vM⟩ : RenderedFrame)), d⟩ := by
  unfold make_animation
  constructor
  · intro h
    cases h1 : (if truthyQ vmin then vmin else listMin (flattenCube data)) with
    | none => rw [h1] at h; simp at h
    | some vm =>
      rw [h1] at h
      cases h2 : (if truthyQ vmax then vmax else listMax (flattenCube data)) with
      | none => rw [h2] at h; simp at h
      | some vM =>
        rw [h2] at h
        cases h3 : pyIndex data s with
        | none => rw [h3] at h; simp at h
        | some fr =>
          rw [h3] at h
          refine ⟨vm, vM, fr, rfl, rfl, rfl, ?_⟩
          replace h : some (⟨(List.range
              (((if truthyInt e then e.getD 0 else (data.length : ℤ) - 1) -
                s + 1).toNat)).map
              (fun (i : ℕ) => (⟨(i : ℤ) + s, vm, vM⟩ : RenderedFrame)), d⟩ :
              AnimationResult) = some a := h
          exact (Option.some_inj.mp h).symm
  · rintro ⟨vm, vM, fr, h1, h2, h3, rfl⟩
    rw [h1, h2, h3]

theorem anim_bounds_aux (data : List Frame) (s : ℤ) (e : Option ℤ)
    (vmin vmax : Option ℚ) (d : ℕ) (a : AnimationResult)
    (hv1 : truthyQ vmin = false) (hv2 : truthyQ vmax = false)
    (h : make_animation data s e vmin vmax d = some a) :
    ∃ vm vM, listMin (flattenCube data) = some vm ∧
      listMax (flattenCube data) = some vM ∧
      ∀ f ∈ a.frames, f.vmin = vm ∧ f.vmax = vM := by
  rw [make_animation_eq_some] at h
  obtain ⟨vm, vM, fr, h1, h2, h3, rfl⟩ := h
  rw [hv1] at h1
  rw [hv2] at h2
  simp only [Bool.false_eq_true, if_false] at h1 h2
  refine ⟨vm, vM, h1, h2, ?_⟩
  intro f hf
  simp only [List.mem_map] at hf
  obtain ⟨i, -, rfl⟩ := hf
  exact ⟨rfl, rfl⟩

theorem anim_length_aux (data : List Frame) (s : ℤ) (e : Option ℤ)
    (vmin vmax : Option ℚ) (d : ℕ) (a : AnimationResult)
    (h : make_animation data s e vmin vmax d = some a) :
    a.frames.length =
      ((if truthyInt e then e.getD 0 else (data.length : ℤ) - 1) - s + 1).toNat := by
  rw [make_animation_eq_some] at h
  obtain ⟨vm, vM, fr, h1, h2, h3, rfl⟩ := h
  simp

theorem pyIndex_zero_of_ne_nil {α : Type} (l : List α) (h : l ≠ []) :
    ∃ x, pyIndex l 0 = some x := by
  cases l with
  | nil => exact absurd rfl h
  | cons x tl => exact ⟨x, rfl⟩

/-! ## Claim theorems: frame animation builder -/

/-- C10: `make_animation` tests its optional arguments by Python truthiness,
not by `is None`: an explicit `0` argument behaves exactly like an absent
one, so `vmin = 0` or `vmax = 0` is replaced by the global minimum or
maximum of the data, and `end_frame = 0` is replaced by the last frame
index. -/
theorem anim_truthy_zero :
    (∀ (data : List Frame) (s : ℤ) (e : Option ℤ) (vmax : Option ℚ) (d : ℕ),
      make_animation data s e (some 0) vmax d =
        make_animation data s e none vmax d) ∧
    (∀ (data : List Frame) (s : ℤ) (e : Option ℤ) (vmin : Option ℚ) (d : ℕ),
      make_animation data s e vmin (some 0) d =
        make_animation data s e vmin none d) ∧
    (∀ (data : List Frame) (s : ℤ) (vmin vmax : Option ℚ) (d : ℕ),
      make_animation data s (some 0) vmin vmax d =
        make_animation data s none vmin vmax d) ∧
    (∀ (data : List Frame) (s : ℤ) (e : Option ℤ) (d : ℕ) (a : AnimationResult),
      make_animation data s e (some 0) (some 0) d = some a →
      ∃ vm vM, listMin (flattenCube data) = some vm ∧
        listMax (flattenCube data) = some vM ∧
        ∀ f ∈ a.frames, f.vmin = vm ∧ f.vmax = vM) ∧
    (∀ (data : List Frame) (s : ℤ) (vmin vmax : Option ℚ) (d : ℕ)
        (a : AnimationResult),
      make_animation data s (some 0) vmin vmax d = some a →
      a.frames.length = (((data.length : ℤ) - 1) - s + 1).toNat) := by
  refine ⟨fun data s e vmax d => rfl, fun data s e vmin d => rfl,
    fun data s vmin vmax d => rfl, ?_, ?_⟩
  · intro data s e d a h
    exact anim_bounds_aux data s e (some 0) (some 0) d a rfl rfl h
  · intro data s vmin vmax d a h
    have := anim_length_aux data s (some 0) vmin vmax d a h
    simpa [truthyInt] using this

/-- Witness for `anim_truthy_zero` on the one-frame cube `[[[5]]]`:
`vmin = vmax = 0` are replaced by the global min/max `5`, and
`end_frame = 0` is replaced by the last index `0`, giving one frame. -/
theorem anim_truthy_zero_witness :
    (∃ vm vM, listMin (flattenCube [[[5]]]) = some vm ∧
      listMax (flattenCube [[[5]]]) = some vM ∧
      ∀ f ∈ (AnimationResult.mk [⟨0, 5, 5⟩] 50).frames,
        f.vmin = vm ∧ f.vmax = vM) ∧
    (AnimationResult.mk [⟨0, 1, 2⟩] 50).frames.length =
      (((([[[5]]] : List Frame).length : ℤ) - 1) - 0 + 1).toNat :=
  ⟨anim_truthy_zero.2.2.2.1 [[[5]]] 0 none 50 ⟨[⟨0, 5, 5⟩], 50⟩ rfl,
   anim_truthy_zero.2.2.2.2 [[[5]]] 0 (some 1) (some 2) 50 ⟨[⟨0, 1, 2⟩], 50⟩ rfl⟩

/-- C9: when `vmin` and `vmax` are not supplied, they are set once, before
rendering, to the global minimum and maximum over the whole frame sequence,
and every rendered frame carries those same fixed bounds. -/
theorem anim_default_bounds (data : List Frame) (s : ℤ) (e : Option ℤ)
    (d : ℕ) (a : AnimationResult)
    (h : make_animation data s e none none d = some a) :
    ∃ vm vM, listMin (flattenCube data) = some vm ∧
      listMax (flattenCube data) = some vM ∧
      ∀ f ∈ a.frames, f.vmin = vm ∧ f.vmax = vM :=
  anim_bounds_aux data s e none none d a rfl rfl h

/-- Witness for `anim_default_bounds` on the one-frame cube `[[[1]]]`. -/
theorem anim_default_bounds_witness :
    ∃ vm vM, listMin (flattenCube [[[1]]]) = some vm ∧
      listMax (flattenCube [[[1]]]) = some vM ∧
      ∀ f ∈ (AnimationResult.mk [⟨0, 1, 1⟩] 50).frames,
        f.vmin = vm ∧ f.vmax = vM :=
  anim_default_bounds [[[1]]] 0 none 50 ⟨[⟨0, 1, 1⟩], 50⟩ rfl

/-- C8 counterexample: on a 3-frame cube with explicit `start_frame = 0` and
`end_frame = 0`, the claim predicts `end_frame - start_frame + 1 = 1`
rendered frame, but `end_frame = 0` is falsy and is replaced by the last
index, so 3 frames are rendered. -/
theorem anim_endframe_zero_cex :
    (make_animation [[[0]], [[1]], [[2]]] 0 (some 0) (some 1) (some 2) 50).map
      (fun a => a.frames.length) = some 3 ∧ (3 : ℕ) ≠ 0 - 0 + 1 :=
  ⟨rfl, by decide⟩

/-- C8 amended: for a nonempty cube with at least one pixel, the default
start and end render every frame; an explicit NONZERO end frame index (with
a valid start index) renders `end_frame - start_frame + 1` frames (an
explicit `end_frame = 0` is instead treated as absent, see the truthiness
theorem); in particular a 3-frame cube yields 3 frames with the default
start and 2 frames with `start_frame = 1`. -/
theorem anim_frame_counts (data : List Frame)
    (hne : flattenCube data ≠ []) (hd : data ≠ []) :
    (∃ a, make_animation data 0 none none none 50 = some a ∧
      a.frames.length = data.length) ∧
    (∀ s e : ℤ, e ≠ 0 → pyIndex data s ≠ none →
      ∃ a, make_animation data s (some e) none none 50 = some a ∧
        a.frames.length = (e - s + 1).toNat) ∧
    (∀ f0 f1 f2 : Frame, ∃ a0 a1,
      make_animation [f0, f1, f2] 0 none (some 1) (some 2) 50 = some a0 ∧
      a0.frames.length = 3 ∧
      make_animation [f0, f1, f2] 1 none (some 1) (some 2) 50 = some a1 ∧
      a1.frames.length = 2) := by
  obtain ⟨vm, hvm⟩ : ∃ vm, listMin (flattenCube data) = some vm := by
    cases hx : listMin (flattenCube data) with
    | none => exact absurd ((listMin_eq_none _).mp hx) hne
    | some vm => exact ⟨vm, rfl⟩
  obtain ⟨vM, hvM⟩ : ∃ vM, listMax (flattenCube data) = some vM := by
    cases hx : listMax (flattenCube data) with
    | none => exact absurd ((listMax_eq_none _).mp hx) hne
    | some vM => exact ⟨vM, rfl⟩
  refine ⟨?_, ?_, ?_⟩
  · obtain ⟨x, hx⟩ := pyIndex_zero_of_ne_nil data hd
    refine ⟨_, (make_animation_eq_some data 0 none none none 50 _).mpr
      ⟨vm, vM, x, by simp [truthyQ, hvm], by simp [truthyQ, hvM], hx, rfl⟩, ?_⟩
    simp only [List.length_map, List.length_range, truthyInt]
    rw [if_neg (by simp)]
    omega
  · intro s e he hp
    cases hx : pyIndex data s with
    | none => exact absurd hx hp
    | some fr =>
      refine ⟨_, (make_animation_eq_some data s (some e) none none 50 _).mpr
        ⟨vm, vM, fr, by simp [truthyQ, hvm], by simp [truthyQ, hvM], hx, rfl⟩, ?_⟩
      simp only [List.length_map, List.length_range, truthyInt]
      rw [if_pos (by simpa using he)]
      rfl
  · intro f0 f1 f2
    refine ⟨_, _,
      (make_animation_eq_some [f0, f1, f2] 0 none (some 1) (some 2) 50 _).mpr
        ⟨1, 2, f0, rfl, rfl, rfl, rfl⟩, rfl,
      (make_animation_eq_some [f0, f1, f2] 1 none (some 1) (some 2) 50 _).mpr
        ⟨1, 2, f1, rfl, rfl, rfl, rfl⟩, rfl⟩

/-- Witness for `anim_frame_counts` at the 3-frame cube
`[[[0]], [[1]], [[2]]]`. -/
theorem anim_frame_counts_witness :
    ((∃ a, make_animation [[[(0:ℚ)]], [[1]], [[2]]] 0 none none none 50 = some a ∧
      a.frames.length = ([[[(0:ℚ)]], [[1]], [[2]]] : List Frame).length) ∧
    (∀ s e : ℤ, e ≠ 0 →
      pyIndex ([[[(0:ℚ)]], [[1]], [[2]]] : List Frame) s ≠ none →
      ∃ a, make_animation [[[(0:ℚ)]], [[1]], [[2]]] s (some e) none none 50 = some a ∧
        a.frames.length = (e - s + 1).toNat) ∧
    (∀ f0 f1 f2 : Frame, ∃ a0 a1,
      make_animation [f0, f1, f2] 0 none (some 1) (some 2) 50 = some a0 ∧
      a0.frames.length = 3 ∧
      make_animation [f0, f1, f2] 1 none (some 1) (some 2) 50 = some a1 ∧
      a1.frames.length = 2)) :=
  anim_frame_counts [[[0]], [[1]], [[2]]] (by decide) (by decide)

end TessWorkshop
